import Mathlib

/-!
Verification of the thread-pool core of the DesignPatterns repository
(src/Concurrency/ThreadPool/main.cpp).

The C++ class ThreadPool owns
  - m_tasks   : std::queue of std::function tasks (FIFO),
  - m_running : std::atomic flag,
  - m_workers : std::vector of std::thread, each running the worker lambda
                of the constructor (lines 39-58),
  - a mutex and a condition variable guarding m_tasks.

We embed the pool as an explicit state and an interleaving step relation.
Every critical section of the C++ code (each region holding m_mutex) is one
atomic step; task execution (line 56, outside the lock) is its own step.
Condition-variable wakeups are modelled, as usual for interleaving
semantics, by the guards of the steps: a worker step is enabled exactly
when the wait predicate of line 46 lets the wait return.

Ghost fields (enqueuedLog, startedLog, executedLog, lostLog) record the
history of submissions, dequeues, completed executions and tasks whose
body raised, so that delivery and ordering properties can be stated.
-/

/-- Outcome of invoking the callable body of a task: the std::function either
returns normally or raises an exception. -/
inductive TaskBody
  | ok
  | throws
deriving DecidableEq, Repr

/-- One unit of work submitted to the pool, identified by a ghost id so that
delivery counts can be stated. The body field records whether the callable
returns normally or raises. -/
structure PoolTask where
  id : Nat
  body : TaskBody
deriving DecidableEq, Repr

/-- Local state of one worker thread, i.e. one position in the control flow
of the worker lambda (main.cpp lines 39-58).
  - waiting: blocked in the condition wait of line 46 (or about to re-check);
  - running t: returned from the critical section holding task t and
    executing it at line 56;
  - stopped: returned from the lambda at line 50 (thread finished, joinable);
  - crashed: the body of a task raised at line 56; there is no try/catch
    around the call, so the exception escapes the lambda (in C++ this calls
    std::terminate);
  - joined: the thread was joined by the destructor (line 77). -/
inductive WorkerState
  | waiting
  | running (t : PoolTask)
  | stopped
  | crashed
  | joined
deriving DecidableEq, Repr

/-- Program counter of the destructor (main.cpp lines 65-80), which is the
shutdown sequence of the pool:
  - notCalled: destruction has not begun;
  - flagCleared: the critical section of lines 67-70 has run (m_running set
    to false under the lock);
  - joining i: the notify_all of line 71 has been issued and the join loop
    of lines 73-79 has joined workers 0..i-1;
  - done: the join loop finished, the destructor returned. -/
inductive DtorPhase
  | notCalled
  | flagCleared
  | joining (i : Nat)
  | done
deriving DecidableEq, Repr

/-- The state of a ThreadPool object together with its worker threads and
the ghost history logs. Field names m_tasks, m_running, m_workers follow the
C++ members. -/
structure ThreadPool where
  m_tasks : List PoolTask
  m_running : Bool
  m_workers : List WorkerState
  dtorPhase : DtorPhase
  enqueuedLog : List PoolTask
  startedLog : List PoolTask
  executedLog : List Nat
  lostLog : List Nat
deriving DecidableEq, Repr

/-- The constructor body (lines 35-60): m_running is initialised to true and
the loop emplaces threadCount workers, each immediately entering the worker
lambda, i.e. immediately blocked at the wait of line 46 with an empty queue.
All workers share the single m_tasks queue and the single m_running flag of
the state. -/
def initialState (threadCount : Nat) : ThreadPool :=
  { m_tasks := []
    m_running := true
    m_workers := List.replicate threadCount .waiting
    dtorPhase := .notCalled
    enqueuedLog := []
    startedLog := []
    executedLog := []
    lostLog := [] }

/-- Possible construction failure, used to express the spec requirement that
threadCount below 1 be rejected. The C++ constructor has no such path. -/
inductive ConstructError
  | badThreadCount
deriving DecidableEq, Repr

/-- The C++ constructor ThreadPool::ThreadPool (lines 35-60) viewed as a
fallible operation: its body contains no validation of threadCount and no
throw statement, so it succeeds on every input, including 0, and produces
the initial state with exactly threadCount workers. -/
def construct (threadCount : Nat) : Except ConstructError ThreadPool :=
  .ok (initialState threadCount)

/-- Modelled from the spec (section 7, construction error): construction
with threadCount below 1 fails fast before spawning any thread. This
definition follows the words of the spec and is compared against the
constructor of the code, which performs no such check. -/
def constructSpecModel (threadCount : Nat) : Except ConstructError ThreadPool :=
  if threadCount < 1 then .error .badThreadCount
  else .ok (initialState threadCount)

/-- ThreadPool::enqueueTask (lines 86-93): under the lock, push the task at
the tail of m_tasks, then notify one waiter. The function reads neither
m_running nor the destruction state: no check guards the push. The ghost
log enqueuedLog records the submission. -/
def enqueueTask (t : PoolTask) (s : ThreadPool) : ThreadPool :=
  { s with
    m_tasks := s.m_tasks ++ [t]
    enqueuedLog := s.enqueuedLog ++ [t] }

/-- Result of one round of the blocking dequeue performed by the worker
lambda inside the critical section of lines 44-55. -/
inductive PopResult
  | blocked
  | shutdownSignal
  | dequeued (t : PoolTask) (rest : List PoolTask)
deriving DecidableEq, Repr

/-- The wait predicate of line 46: the condition wait returns only when the
queue is non-empty or the running flag is false. -/
def waitPredicateHolds (tasks : List PoolTask) (running : Bool) : Bool :=
  !tasks.isEmpty || !running

/-- The blocking dequeue of lines 44-55, as a function of the data it reads
(m_tasks and m_running):
  - if the wait predicate of line 46 is false the worker stays blocked;
  - otherwise, line 48: when m_running is false and the queue is empty the
    lambda returns (shutdown sentinel);
  - otherwise lines 53-54 remove and return the queue head.
The final nil branch is unreachable: when the wait predicate holds and the
sentinel test fails the queue is provably non-empty (see the contract
theorem below). -/
def popBlocking (tasks : List PoolTask) (running : Bool) : PopResult :=
  if waitPredicateHolds tasks running then
    if !running && tasks.isEmpty then .shutdownSignal
    else
      match tasks with
      | t :: rest => .dequeued t rest
      | [] => .shutdownSignal
  else .blocked

/-- Interleaving small-step semantics of the pool: one constructor per
atomic section of the C++ code.
  - enqueue: a producer runs enqueueTask (lines 86-93); note the complete
    absence of a guard on m_running or on the destruction phase;
  - dequeue: a waiting worker passes the wait of line 46 because the queue
    is non-empty, skips the return of line 48, and pops the head
    (lines 53-54), leaving the critical section with the task;
  - exitLoop: a waiting worker passes the wait of line 46 because m_running
    is false, finds the queue empty, and returns at line 50;
  - finishTask: a worker executes its task at line 56 and the body returns
    normally; the worker loops back to the wait;
  - crashTask: a worker executes its task at line 56 and the body raises;
    line 56 has no try/catch, so the exception escapes the lambda and the
    worker never reaches the wait again;
  - dtorBegin: the destructor runs the critical section of lines 67-70,
    clearing m_running;
  - dtorNotifyAll: the destructor issues the broadcast notify_all of
    line 71 (in this interleaving model the wakeup itself carries no state
    change: woken workers re-check the wait predicate, which is the guard
    of their steps);
  - dtorJoin: the join of line 77 on worker i returns, which requires that
    the thread has finished (the worker has stopped); the joinable guard of
    line 75 is satisfied because a stopped, not yet joined thread is
    joinable;
  - dtorFinish: the loop of lines 73-79 has passed every worker and the
    destructor returns. -/
inductive Step : ThreadPool → ThreadPool → Prop
  | enqueue (s : ThreadPool) (t : PoolTask) :
      Step s (enqueueTask t s)
  | dequeue (s : ThreadPool) (i : Nat) (t : PoolTask) (rest : List PoolTask) :
      s.m_workers[i]? = some .waiting →
      s.m_tasks = t :: rest →
      Step s { s with
        m_workers := s.m_workers.set i (.running t)
        m_tasks := rest
        startedLog := s.startedLog ++ [t] }
  | exitLoop (s : ThreadPool) (i : Nat) :
      s.m_workers[i]? = some .waiting →
      s.m_running = false →
      s.m_tasks = [] →
      Step s { s with m_workers := s.m_workers.set i .stopped }
  | finishTask (s : ThreadPool) (i : Nat) (t : PoolTask) :
      s.m_workers[i]? = some (.running t) →
      t.body = .ok →
      Step s { s with
        m_workers := s.m_workers.set i .waiting
        executedLog := s.executedLog ++ [t.id] }
  | crashTask (s : ThreadPool) (i : Nat) (t : PoolTask) :
      s.m_workers[i]? = some (.running t) →
      t.body = .throws →
      Step s { s with
        m_workers := s.m_workers.set i .crashed
        lostLog := s.lostLog ++ [t.id] }
  | dtorBegin (s : ThreadPool) :
      s.dtorPhase = .notCalled →
      Step s { s with m_running := false, dtorPhase := .flagCleared }
  | dtorNotifyAll (s : ThreadPool) :
      s.dtorPhase = .flagCleared →
      Step s { s with dtorPhase := .joining 0 }
  | dtorJoin (s : ThreadPool) (i : Nat) :
      s.dtorPhase = .joining i →
      s.m_workers[i]? = some .stopped →
      Step s { s with
        m_workers := s.m_workers.set i .joined
        dtorPhase := .joining (i + 1) }
  | dtorFinish (s : ThreadPool) (i : Nat) :
      s.dtorPhase = .joining i →
      s.m_workers.length ≤ i →
      Step s { s with dtorPhase := .done }

/-- Reflexive-transitive closure of the step relation: the states a pool can
reach under some interleaving. -/
def Reachable : ThreadPool → ThreadPool → Prop :=
  Relation.ReflTransGen Step

/-! ### The destructor as a sequential procedure (for idempotence) -/

/-- A std::thread is joinable until it has been joined; the thread object
of a worker in any state other than joined answers true to the joinable
test of line 75. -/
def joinable : WorkerState → Bool
  | .joined => false
  | _ => true

/-- One iteration of the join loop of lines 73-79 on one worker:
  - a stopped worker is joinable, join returns at once and the thread
    becomes joined;
  - an already joined worker fails the joinable guard and is skipped;
  - for a worker whose thread has not finished, join blocks until it does;
    none marks that this call does not return in the quiescent setting
    considered here. -/
def joinIfJoinable : WorkerState → Option WorkerState
  | .stopped => some .joined
  | .joined => some .joined
  | _ => none

/-- The join loop of lines 73-79 over the whole worker vector. -/
def joinAllWorkers : List WorkerState → Option (List WorkerState)
  | [] => some []
  | w :: ws =>
    match joinIfJoinable w with
    | none => none
    | some w2 =>
      match joinAllWorkers ws with
      | none => none
      | some ws2 => some (w2 :: ws2)

/-- The destructor body (lines 65-80) run as one sequential procedure, the
way a second shutdown invocation runs after a first one has completed:
clear m_running under the lock (lines 67-70), notify_all (line 71, no
state change), then run the guarded join loop (lines 73-79). The result is
none when some join would block forever. -/
def destructorRun (s : ThreadPool) : Option ThreadPool :=
  match joinAllWorkers s.m_workers with
  | none => none
  | some ws => some { s with m_running := false, m_workers := ws }

/-- Number of join calls a destructorRun from this state performs: one per
worker that passes the joinable guard of line 75. -/
def joinsPerformed (s : ThreadPool) : Nat :=
  (s.m_workers.filter joinable).length

/-! ### Concrete tasks and traces -/

/-- A first demonstration task whose body returns normally. -/
def demoTaskA : PoolTask := { id := 0, body := .ok }

/-- A second demonstration task whose body returns normally. -/
def demoTaskB : PoolTask := { id := 1, body := .ok }

/-- A task whose body raises an exception when invoked. -/
def throwingTask : PoolTask := { id := 7, body := .throws }

/-- Demonstration run, full life cycle of a single-worker pool: submit two
tasks, let the worker drain them, then destroy the pool. State after the
two submissions. -/
def demo2 : ThreadPool :=
  { m_tasks := [demoTaskA, demoTaskB]
    m_running := true
    m_workers := [.waiting]
    dtorPhase := .notCalled
    enqueuedLog := [demoTaskA, demoTaskB]
    startedLog := []
    executedLog := []
    lostLog := [] }

/-- Demonstration run: the worker has dequeued the first task. -/
def demo3 : ThreadPool :=
  { m_tasks := [demoTaskB]
    m_running := true
    m_workers := [.running demoTaskA]
    dtorPhase := .notCalled
    enqueuedLog := [demoTaskA, demoTaskB]
    startedLog := [demoTaskA]
    executedLog := []
    lostLog := [] }

/-- Demonstration run: the first task has completed. -/
def demo4 : ThreadPool :=
  { m_tasks := [demoTaskB]
    m_running := true
    m_workers := [.waiting]
    dtorPhase := .notCalled
    enqueuedLog := [demoTaskA, demoTaskB]
    startedLog := [demoTaskA]
    executedLog := [0]
    lostLog := [] }

/-- Demonstration run: the worker has dequeued the second task. -/
def demo5 : ThreadPool :=
  { m_tasks := []
    m_running := true
    m_workers := [.running demoTaskB]
    dtorPhase := .notCalled
    enqueuedLog := [demoTaskA, demoTaskB]
    startedLog := [demoTaskA, demoTaskB]
    executedLog := [0]
    lostLog := [] }

/-- Demonstration run: both tasks have completed. -/
def demo6 : ThreadPool :=
  { m_tasks := []
    m_running := true
    m_workers := [.waiting]
    dtorPhase := .notCalled
    enqueuedLog := [demoTaskA, demoTaskB]
    startedLog := [demoTaskA, demoTaskB]
    executedLog := [0, 1]
    lostLog := [] }

/-- Demonstration run: the destructor has cleared the running flag. -/
def demo7 : ThreadPool :=
  { m_tasks := []
    m_running := false
    m_workers := [.waiting]
    dtorPhase := .flagCleared
    enqueuedLog := [demoTaskA, demoTaskB]
    startedLog := [demoTaskA, demoTaskB]
    executedLog := [0, 1]
    lostLog := [] }

/-- Demonstration run: the destructor has broadcast notify_all. -/
def demo8 : ThreadPool :=
  { demo7 with dtorPhase := .joining 0 }

/-- Demonstration run: the woken worker found the flag cleared and the
queue empty and returned from its loop. -/
def demo9 : ThreadPool :=
  { demo8 with m_workers := [.stopped] }

/-- Demonstration run: the destructor joined the worker thread. -/
def demo10 : ThreadPool :=
  { demo9 with m_workers := [.joined], dtorPhase := .joining 1 }

/-- Demonstration run: the destructor has returned. -/
def demo11 : ThreadPool :=
  { demo10 with dtorPhase := .done }

/-- Drain run: a task is still queued at the moment the destructor starts;
state after one submission to a fresh single-worker pool. -/
def drain1 : ThreadPool :=
  { m_tasks := [demoTaskA]
    m_running := true
    m_workers := [.waiting]
    dtorPhase := .notCalled
    enqueuedLog := [demoTaskA]
    startedLog := []
    executedLog := []
    lostLog := [] }

/-- Drain run: the destructor begins while the task is still queued. -/
def drain2 : ThreadPool :=
  { drain1 with m_running := false, dtorPhase := .flagCleared }

/-- Drain run: the worker dequeues the task although the flag is already
cleared, because the queue is non-empty. -/
def drain3 : ThreadPool :=
  { drain2 with
    m_tasks := []
    m_workers := [.running demoTaskA]
    startedLog := [demoTaskA] }

/-- Drain run: the queued task completes after shutdown began. -/
def drain4 : ThreadPool :=
  { drain3 with m_workers := [.waiting], executedLog := [0] }

/-- Drain run: the worker now finds the queue empty and the flag cleared
and leaves its loop. -/
def drain5 : ThreadPool :=
  { drain4 with m_workers := [.stopped] }

/-- Drain run: the destructor broadcast reaches the join loop. -/
def drain6 : ThreadPool :=
  { drain5 with dtorPhase := .joining 0 }

/-- Drain run: the worker thread is joined. -/
def drain7 : ThreadPool :=
  { drain6 with m_workers := [.joined], dtorPhase := .joining 1 }

/-- Drain run: destruction complete; the task submitted before shutdown
has executed. -/
def drain8 : ThreadPool :=
  { drain7 with dtorPhase := .done }

/-- Early-stop run on a two-worker pool: one task submitted. -/
def stop1 : ThreadPool :=
  { m_tasks := [demoTaskA]
    m_running := true
    m_workers := [.waiting, .waiting]
    dtorPhase := .notCalled
    enqueuedLog := [demoTaskA]
    startedLog := []
    executedLog := []
    lostLog := [] }

/-- Early-stop run: the destructor begins with the task still queued. -/
def stop2 : ThreadPool :=
  { stop1 with m_running := false, dtorPhase := .flagCleared }

/-- Early-stop run: worker 0 dequeues the task and starts executing it. -/
def stop3 : ThreadPool :=
  { stop2 with
    m_tasks := []
    m_workers := [.running demoTaskA, .waiting]
    startedLog := [demoTaskA] }

/-- Early-stop run: worker 1 wakes, sees the cleared flag and the empty
queue, and transitions to Stopped while the task dequeued by worker 0 is
still executing and not yet complete. -/
def stop4 : ThreadPool :=
  { stop3 with m_workers := [.running demoTaskA, .stopped] }

/-- Crash run: a single-worker pool is given a throwing task followed by a
normal one. State after both submissions. -/
def crash1 : ThreadPool :=
  { m_tasks := [throwingTask, demoTaskB]
    m_running := true
    m_workers := [.waiting]
    dtorPhase := .notCalled
    enqueuedLog := [throwingTask, demoTaskB]
    startedLog := []
    executedLog := []
    lostLog := [] }

/-- Crash run: the worker dequeues the throwing task. -/
def crash2 : ThreadPool :=
  { crash1 with
    m_tasks := [demoTaskB]
    m_workers := [.running throwingTask]
    startedLog := [throwingTask] }

/-- Crash run: the task body raises at line 56; no handler exists, the
exception escapes the worker lambda and the only worker is dead, with the
normal task still queued and nothing executed. -/
def crash3 : ThreadPool :=
  { crash2 with
    m_workers := [.crashed]
    lostLog := [7] }

/-- Quiescent single-worker state whose thread has finished, used to run
the destructor sequence twice. -/
def quiesced : ThreadPool :=
  { m_tasks := []
    m_running := false
    m_workers := [.stopped]
    dtorPhase := .flagCleared
    enqueuedLog := []
    startedLog := []
    executedLog := []
    lostLog := [] }

/-- A pool in the middle of draining: the flag is cleared, the worker is
still in its loop, the queue is empty, threads not yet joined. -/
def draining : ThreadPool :=
  { m_tasks := []
    m_running := false
    m_workers := [.waiting]
    dtorPhase := .flagCleared
    enqueuedLog := [demoTaskA]
    startedLog := [demoTaskA]
    executedLog := [0]
    lostLog := [] }

/-! ### Basic list helpers -/

/-- Reading a set list at any position, when the set position is in bounds. -/
theorem getElem?_set_split {α : Type} {l : List α} {i : Nat} {a : α}
    (h : l[i]? = some a) (b : α) (j : Nat) :
    (l.set i b)[j]? = if i = j then some b else l[j]? := by
  obtain ⟨hlt, -⟩ := List.getElem?_eq_some_iff.mp h
  by_cases hij : i = j
  · subst hij
    simp [List.getElem?_set_self hlt]
  · simp [List.getElem?_set_ne hij, hij]

/-- Setting a position to the value it already holds is the identity. -/
theorem set_self_of_getElem? {α : Type} {l : List α} {i : Nat} {a : α}
    (h : l[i]? = some a) : l.set i a = l := by
  induction l generalizing i with
  | nil => simp at h
  | cons hd tl ih =>
    cases i with
    | zero => simp_all [List.set]
    | succ n =>
      simp only [List.getElem?_cons_succ] at h
      simp [List.set, ih h]


/-- Exchanging one element of a list changes the occurrence counts seen
through a filterMap only by the contributions of the old and new elements. -/
theorem filterMap_set_count {α β : Type} [DecidableEq β] (f : α → Option β)
    {l : List α} {i : Nat} {a : α} (h : l[i]? = some a) (b : α) (x : β) :
    ((l.set i b).filterMap f).count x + ((f a).toList).count x
      = (l.filterMap f).count x + ((f b).toList).count x := by
  induction l generalizing i with
  | nil => simp at h
  | cons hd tl ih =>
    cases i with
    | zero =>
      have ha : hd = a := by simpa using h
      subst ha
      rcases hfa : f hd with - | c <;> rcases hfb : f b with - | d <;>
        simp [List.set, List.filterMap_cons, hfa, hfb, List.count_cons] <;>
        omega
    | succ n =>
      have h2 : tl[n]? = some a := by simpa using h
      have hih := ih h2
      rcases hfh : f hd with - | c <;>
        simp only [List.set, List.filterMap_cons, hfh, List.count_cons,
          List.count_append] <;>
        omega

/-- A filterMap that drops every copy of a replicated element yields nil. -/
theorem filterMap_replicate_none {α β : Type} (f : α → Option β) (a : α)
    (h : f a = none) (n : Nat) : (List.replicate n a).filterMap f = [] := by
  induction n with
  | zero => rfl
  | succ m ih => simp [List.replicate, List.filterMap_cons, h, ih]

/-! ### The pool invariant -/

/-- The ghost id of the task a worker is currently executing, if any. -/
def workerTaskId : WorkerState → Option Nat
  | .running t => some t.id
  | _ => none

/-- Ids of the tasks currently being executed by some worker (dequeued but
neither finished nor crashed). -/
def inFlightIds (ws : List WorkerState) : List Nat :=
  ws.filterMap workerTaskId

/-- Invariant of every reachable pool state.
  - fifo: the submission log is exactly the dequeue log followed by the
    queue contents, so tasks leave the queue in submission order;
  - conserve: every dequeued task id is accounted for exactly once, as
    completed, in flight, or lost to an escaped exception;
  - flagBeforeDtor: from the first destructor action on, m_running is false;
  - runningAtStart: before the destructor runs, m_running is true;
  - joinedBelow and joinedAll: the join loop has joined exactly the workers
    below its index, and all of them when the destructor has returned;
  - noStopWhileRunning: while m_running is true no worker has left its loop
    normally and none has been joined. -/
structure PoolInv (s : ThreadPool) : Prop where
  fifo : s.enqueuedLog = s.startedLog ++ s.m_tasks
  conserve : ∀ x : Nat,
    (s.startedLog.map PoolTask.id).count x
      = s.executedLog.count x + (inFlightIds s.m_workers).count x
        + s.lostLog.count x
  flagBeforeDtor : s.dtorPhase ≠ .notCalled → s.m_running = false
  runningAtStart : s.dtorPhase = .notCalled → s.m_running = true
  joinedBelow : ∀ i j : Nat, s.dtorPhase = .joining i → j < i →
    s.m_workers[j]? = some .joined
  joinedAll : s.dtorPhase = .done → ∀ j : Nat, j < s.m_workers.length →
    s.m_workers[j]? = some .joined
  noStopWhileRunning : s.m_running = true → ∀ j : Nat, ∀ w : WorkerState,
    s.m_workers[j]? = some w → w ≠ .stopped ∧ w ≠ .joined

/-- The initial state satisfies the invariant. -/
theorem poolInv_initialState (n : Nat) : PoolInv (initialState n) := by
  refine ⟨rfl, by simp [inFlightIds, initialState,
      filterMap_replicate_none workerTaskId .waiting rfl], ?_, fun _ => rfl, ?_, ?_, ?_⟩
  · intro h; exact absurd rfl h
  · intro i j h; simp [initialState] at h
  · intro h; simp [initialState] at h
  · intro _ j w h
    simp only [initialState] at h
    rcases List.getElem?_eq_some_iff.mp h with ⟨hj, hw⟩
    rw [List.getElem_replicate] at hw
    subst hw
    exact ⟨by simp, by simp⟩

/-- Each atomic step of the pool preserves the invariant. -/
theorem poolInv_step {s s2 : ThreadPool} (h : Step s s2) (hI : PoolInv s) :
    PoolInv s2 := by
  obtain ⟨fifo, conserve, flagB, runA, joinB, joinA, noStop⟩ := hI
  cases h with
  | enqueue t =>
      refine ⟨?_, ?_, flagB, runA, joinB, joinA, noStop⟩
      · dsimp only [enqueueTask]
        rw [fifo, List.append_assoc]
      · intro x
        dsimp only [enqueueTask]
        exact conserve x
  | dequeue i t rest hw ht =>
      have key := fun x => filterMap_set_count workerTaskId hw (.running t) x
      simp only [workerTaskId, Option.toList] at key
      refine ⟨?_, ?_, flagB, runA, ?_, ?_, ?_⟩
      · dsimp only
        rw [fifo, ht, List.append_cons]
      · intro x
        have hc := conserve x
        have hk := key x
        dsimp only
        simp only [inFlightIds, List.map_append, List.count_append] at *
        simp only [List.map_cons, List.map_nil, List.count_cons,
          List.count_nil] at *
        omega
      · intro i' j hp hj
        dsimp only at hp ⊢
        have hj2 := joinB i' j hp hj
        rw [getElem?_set_split hw]
        split
        · next heq =>
            rw [heq] at hw
            rw [hw] at hj2
            exact absurd hj2 (by simp)
        · exact hj2
      · intro hp j hj
        dsimp only at hp hj ⊢
        obtain ⟨hwlt, -⟩ := List.getElem?_eq_some_iff.mp hw
        have := joinA hp i (by simpa using hwlt)
        rw [hw] at this
        exact absurd this (by simp)
      · intro hrun j w hw2
        dsimp only at hrun hw2
        rw [getElem?_set_split hw] at hw2
        split at hw2
        · cases hw2
          exact ⟨by simp, by simp⟩
        · exact noStop hrun j w hw2
  | exitLoop i hw hrun0 ht =>
      have key := fun x => filterMap_set_count workerTaskId hw .stopped x
      simp only [workerTaskId, Option.toList] at key
      refine ⟨fifo, ?_, flagB, runA, ?_, ?_, ?_⟩
      · intro x
        have hc := conserve x
        have hk := key x
        dsimp only
        simp only [inFlightIds, List.count_append, List.count_nil] at *
        omega
      · intro i' j hp hj
        dsimp only at hp ⊢
        have hj2 := joinB i' j hp hj
        rw [getElem?_set_split hw]
        split
        · next heq =>
            rw [heq] at hw
            rw [hw] at hj2
            exact absurd hj2 (by simp)
        · exact hj2
      · intro hp j hj
        dsimp only at hp hj ⊢
        obtain ⟨hwlt, -⟩ := List.getElem?_eq_some_iff.mp hw
        have := joinA hp i (by simpa using hwlt)
        rw [hw] at this
        exact absurd this (by simp)
      · intro hrun j w hw2
        dsimp only at hrun
        rw [hrun0] at hrun
        exact absurd hrun (by simp)
  | finishTask i t hw hb =>
      have key := fun x => filterMap_set_count workerTaskId hw .waiting x
      simp only [workerTaskId, Option.toList] at key
      refine ⟨fifo, ?_, flagB, runA, ?_, ?_, ?_⟩
      · intro x
        have hc := conserve x
        have hk := key x
        dsimp only
        simp only [inFlightIds, List.count_append, List.count_nil,
          List.count_cons] at *
        omega
      · intro i' j hp hj
        dsimp only at hp ⊢
        have hj2 := joinB i' j hp hj
        rw [getElem?_set_split hw]
        split
        · next heq =>
            rw [heq] at hw
            rw [hw] at hj2
            exact absurd hj2 (by simp)
        · exact hj2
      · intro hp j hj
        dsimp only at hp hj ⊢
        obtain ⟨hwlt, -⟩ := List.getElem?_eq_some_iff.mp hw
        have := joinA hp i (by simpa using hwlt)
        rw [hw] at this
        exact absurd this (by simp)
      · intro hrun j w hw2
        dsimp only at hrun hw2
        rw [getElem?_set_split hw] at hw2
        split at hw2
        · cases hw2
          exact ⟨by simp, by simp⟩
        · exact noStop hrun j w hw2
  | crashTask i t hw hb =>
      have key := fun x => filterMap_set_count workerTaskId hw .crashed x
      simp only [workerTaskId, Option.toList] at key
      refine ⟨fifo, ?_, flagB, runA, ?_, ?_, ?_⟩
      · intro x
        have hc := conserve x
        have hk := key x
        dsimp only
        simp only [inFlightIds, List.count_append, List.count_nil,
          List.count_cons] at *
        omega
      · intro i' j hp hj
        dsimp only at hp ⊢
        have hj2 := joinB i' j hp hj
        rw [getElem?_set_split hw]
        split
        · next heq =>
            rw [heq] at hw
            rw [hw] at hj2
            exact absurd hj2 (by simp)
        · exact hj2
      · intro hp j hj
        dsimp only at hp hj ⊢
        obtain ⟨hwlt, -⟩ := List.getElem?_eq_some_iff.mp hw
        have := joinA hp i (by simpa using hwlt)
        rw [hw] at this
        exact absurd this (by simp)
      · intro hrun j w hw2
        dsimp only at hrun hw2
        rw [getElem?_set_split hw] at hw2
        split at hw2
        · cases hw2
          exact ⟨by simp, by simp⟩
        · exact noStop hrun j w hw2
  | dtorBegin hp =>
      refine ⟨fifo, conserve, fun _ => rfl, ?_, ?_, ?_, ?_⟩
      · intro h2
        exact DtorPhase.noConfusion h2
      · intro i j h2
        exact DtorPhase.noConfusion h2
      · intro h2
        exact DtorPhase.noConfusion h2
      · intro hrun
        exact Bool.noConfusion hrun
  | dtorNotifyAll hp =>
      refine ⟨fifo, conserve, ?_, ?_, ?_, ?_, noStop⟩
      · intro _
        exact flagB (by simp [hp])
      · intro h2
        exact DtorPhase.noConfusion h2
      · intro i' j hpj hj
        dsimp only at hpj
        injection hpj with hi
        omega
      · intro h2
        exact DtorPhase.noConfusion h2
  | dtorJoin i hp hw =>
      have key := fun x => filterMap_set_count workerTaskId hw .joined x
      simp only [workerTaskId, Option.toList] at key
      refine ⟨fifo, ?_, ?_, ?_, ?_, ?_, ?_⟩
      · intro x
        have hc := conserve x
        have hk := key x
        dsimp only
        simp only [inFlightIds, List.count_append, List.count_nil] at *
        omega
      · intro _
        exact flagB (by simp [hp])
      · intro h2
        exact DtorPhase.noConfusion h2
      · intro i' j hpj hj
        dsimp only at hpj ⊢
        injection hpj with hi
        rw [getElem?_set_split hw]
        split
        · rfl
        · next hne => exact joinB i j hp (by omega)
      · intro h2
        exact DtorPhase.noConfusion h2
      · intro hrun j w hw2
        dsimp only at hrun
        have hfalse := flagB (by simp [hp])
        rw [hfalse] at hrun
        exact Bool.noConfusion hrun
  | dtorFinish i hp hlen =>
      refine ⟨fifo, conserve, ?_, ?_, ?_, ?_, ?_⟩
      · intro _
        exact flagB (by simp [hp])
      · intro h2
        exact DtorPhase.noConfusion h2
      · intro i' j hpj hj
        exact DtorPhase.noConfusion hpj
      · intro _ j hj
        dsimp only at hj ⊢
        exact joinB i j hp (by omega)
      · intro hrun j w hw2
        dsimp only at hrun
        have hfalse := flagB (by simp [hp])
        rw [hfalse] at hrun
        exact Bool.noConfusion hrun

/-- The invariant holds in every state reachable from another invariant
state. -/
theorem poolInv_reachable {s s2 : ThreadPool} (h : Reachable s s2)
    (hI : PoolInv s) : PoolInv s2 := by
  induction h with
  | refl => exact hI
  | tail _ hstep ih => exact poolInv_step hstep ih

/-- The invariant holds in every state reachable from construction. -/
theorem poolInv_of_initial {n : Nat} {s : ThreadPool}
    (h : Reachable (initialState n) s) : PoolInv s :=
  poolInv_reachable h (poolInv_initialState n)

/-! ### Monotonicity and support lemmas -/

/-- No step changes the number of workers: the std::vector m_workers is
only written by the constructor. -/
theorem step_workers_length {s s2 : ThreadPool} (h : Step s s2) :
    s2.m_workers.length = s.m_workers.length := by
  cases h <;> simp [enqueueTask]

/-- The worker count is fixed along every execution. -/
theorem reachable_workers_length {s s2 : ThreadPool} (h : Reachable s s2) :
    s2.m_workers.length = s.m_workers.length := by
  induction h with
  | refl => rfl
  | tail _ hstep ih => rw [step_workers_length hstep, ih]

/-- The submission log only grows. -/
theorem step_enqueued_mem {s s2 : ThreadPool} (h : Step s s2) {t : PoolTask}
    (ht : t ∈ s.enqueuedLog) : t ∈ s2.enqueuedLog := by
  cases h <;> simp only [enqueueTask] <;>
    first
      | exact ht
      | exact List.mem_append_left _ ht

/-- The submission log only grows along every execution. -/
theorem reachable_enqueued_mem {s s2 : ThreadPool} (h : Reachable s s2)
    {t : PoolTask} (ht : t ∈ s.enqueuedLog) : t ∈ s2.enqueuedLog := by
  induction h with
  | refl => exact ht
  | tail _ hstep ih => exact step_enqueued_mem hstep ih

/-- The dequeue log only grows. -/
theorem step_started_mem {s s2 : ThreadPool} (h : Step s s2) {t : PoolTask}
    (ht : t ∈ s.startedLog) : t ∈ s2.startedLog := by
  cases h <;> simp only [enqueueTask] <;>
    first
      | exact ht
      | exact List.mem_append_left _ ht

/-- The dequeue log only grows along every execution. -/
theorem reachable_started_mem {s s2 : ThreadPool} (h : Reachable s s2)
    {t : PoolTask} (ht : t ∈ s.startedLog) : t ∈ s2.startedLog := by
  induction h with
  | refl => exact ht
  | tail _ hstep ih => exact step_started_mem hstep ih

/-- Nothing ever sets m_running back to true: the flag transition is
monotonic, one way. -/
theorem step_running_false {s s2 : ThreadPool} (h : Step s s2)
    (hr : s.m_running = false) : s2.m_running = false := by
  cases h <;> simp [enqueueTask] <;> exact hr

/-- Once cleared the running flag stays cleared along every execution. -/
theorem reachable_running_false {s s2 : ThreadPool} (h : Reachable s s2)
    (hr : s.m_running = false) : s2.m_running = false := by
  induction h with
  | refl => exact hr
  | tail _ hstep ih => exact step_running_false hstep ih

/-- When the destructor has returned, every worker slot reads joined. -/
theorem workers_all_joined {s : ThreadPool} (hI : PoolInv s)
    (hp : s.dtorPhase = .done) :
    s.m_workers = List.replicate s.m_workers.length .joined := by
  rw [List.eq_replicate_length]
  intro b hb
  rcases List.mem_iff_getElem?.mp hb with ⟨j, hj⟩
  obtain ⟨hlt, -⟩ := List.getElem?_eq_some_iff.mp hj
  have := hI.joinedAll hp j hlt
  rw [hj] at this
  exact Option.some_inj.mp this

/-- A fully joined worker vector has no task in flight. -/
theorem inFlightIds_replicate_joined (n : Nat) :
    inFlightIds (List.replicate n .joined) = [] :=
  filterMap_replicate_none workerTaskId .joined rfl n

/-! ### Concrete executions -/

/-- The demonstration run reaches the fully drained, fully joined state. -/
theorem demoReach : Reachable (initialState 1) demo11 :=
  .head (Step.enqueue (initialState 1) demoTaskA)
    (.head (Step.enqueue (enqueueTask demoTaskA (initialState 1)) demoTaskB)
    (.head (Step.dequeue demo2 0 demoTaskA [demoTaskB] rfl rfl)
    (.head (Step.finishTask demo3 0 demoTaskA rfl rfl)
    (.head (Step.dequeue demo4 0 demoTaskB [] rfl rfl)
    (.head (Step.finishTask demo5 0 demoTaskB rfl rfl)
    (.head (Step.dtorBegin demo6 rfl)
    (.head (Step.dtorNotifyAll demo7 rfl)
    (.head (Step.exitLoop demo8 0 rfl rfl rfl)
    (.head (Step.dtorJoin demo9 0 rfl rfl)
    (.head (Step.dtorFinish demo10 1 rfl (Nat.le_refl 1)) .refl))))))))))

/-- The drain run reaches the state with one task queued, before shutdown. -/
theorem drainReach1 : Reachable (initialState 1) drain1 :=
  .head (Step.enqueue (initialState 1) demoTaskA) .refl

/-- The drain run: the destructor starts while the task is queued. -/
theorem drainStep12 : Step drain1 drain2 :=
  Step.dtorBegin drain1 rfl

/-- The drain run: from the start of destruction to its completion, the
queued task being dispatched and executed on the way. -/
theorem drainReach28 : Reachable drain2 drain8 :=
  .head (Step.dequeue drain2 0 demoTaskA [] rfl rfl)
    (.head (Step.finishTask drain3 0 demoTaskA rfl rfl)
    (.head (Step.exitLoop drain4 0 rfl rfl rfl)
    (.head (Step.dtorNotifyAll drain5 rfl)
    (.head (Step.dtorJoin drain6 0 rfl rfl)
    (.head (Step.dtorFinish drain7 1 rfl (Nat.le_refl 1)) .refl)))))

/-- The early-stop run reaches the state with one task queued. -/
theorem stopReach1 : Reachable (initialState 2) stop1 :=
  .head (Step.enqueue (initialState 2) demoTaskA) .refl

/-- The early-stop run: destruction begins with the task still queued. -/
theorem stopStep12 : Step stop1 stop2 :=
  Step.dtorBegin stop1 rfl

/-- The early-stop run: worker 0 takes the task; worker 1 stops while the
task is still executing. -/
theorem stopReach24 : Reachable stop2 stop4 :=
  .head (Step.dequeue stop2 0 demoTaskA [] rfl rfl)
    (.head (Step.exitLoop stop3 1 rfl rfl rfl) .refl)

/-- The crash run reaches the state where the only worker is dead. -/
theorem crashReach : Reachable (initialState 1) crash3 :=
  .head (Step.enqueue (initialState 1) throwingTask)
    (.head (Step.enqueue (enqueueTask throwingTask (initialState 1)) demoTaskB)
    (.head (Step.dequeue crash1 0 throwingTask [demoTaskB] rfl rfl)
    (.head (Step.crashTask crash2 0 throwingTask rfl rfl) .refl)))

/-! ### Auxiliary behavioural lemmas -/

/-- A step that takes a worker from its wait to the Stopped state can only
be the return of line 50, whose guards are exactly that the running flag is
false and the queue is empty. -/
theorem exit_requires_idle_and_empty {u u2 : ThreadPool} {i : Nat}
    (h : Step u u2) (hw : u.m_workers[i]? = some .waiting)
    (hw2 : u2.m_workers[i]? = some .stopped) :
    u.m_running = false ∧ u.m_tasks = [] := by
  cases h with
  | enqueue t =>
      dsimp only [enqueueTask] at hw2
      rw [hw] at hw2
      exact absurd hw2 (by simp)
  | dequeue j t rest hwj ht =>
      dsimp only at hw2
      rw [getElem?_set_split hwj] at hw2
      split at hw2
      · exact absurd hw2 (by simp)
      · rw [hw] at hw2
        exact absurd hw2 (by simp)
  | exitLoop j hwj hrun ht =>
      exact ⟨hrun, ht⟩
  | finishTask j t hwj hb =>
      dsimp only at hw2
      rw [getElem?_set_split hwj] at hw2
      split at hw2
      · exact absurd hw2 (by simp)
      · rw [hw] at hw2
        exact absurd hw2 (by simp)
  | crashTask j t hwj hb =>
      dsimp only at hw2
      rw [getElem?_set_split hwj] at hw2
      split at hw2
      · exact absurd hw2 (by simp)
      · rw [hw] at hw2
        exact absurd hw2 (by simp)
  | dtorBegin hp =>
      dsimp only at hw2
      rw [hw] at hw2
      exact absurd hw2 (by simp)
  | dtorNotifyAll hp =>
      dsimp only at hw2
      rw [hw] at hw2
      exact absurd hw2 (by simp)
  | dtorJoin j hp hwj =>
      dsimp only at hw2
      rw [getElem?_set_split hwj] at hw2
      split at hw2
      · exact absurd hw2 (by simp)
      · rw [hw] at hw2
        exact absurd hw2 (by simp)
  | dtorFinish j hp hlen =>
      dsimp only at hw2
      rw [hw] at hw2
      exact absurd hw2 (by simp)

/-- A step that moves the destructor phase from notCalled to flagCleared is
the critical section of lines 67-70 and changes nothing but the flag and
the phase. -/
theorem begin_step_shape {s1 s2 : ThreadPool} (h : Step s1 s2)
    (hp1 : s1.dtorPhase = .notCalled) (hp2 : s2.dtorPhase = .flagCleared) :
    s2 = { s1 with m_running := false, dtorPhase := .flagCleared } := by
  cases h with
  | enqueue t =>
      dsimp only [enqueueTask] at hp2
      rw [hp1] at hp2
      exact absurd hp2 (by simp)
  | dequeue j t rest hwj ht =>
      dsimp only at hp2
      rw [hp1] at hp2
      exact absurd hp2 (by simp)
  | exitLoop j hwj hrun ht =>
      dsimp only at hp2
      rw [hp1] at hp2
      exact absurd hp2 (by simp)
  | finishTask j t hwj hb =>
      dsimp only at hp2
      rw [hp1] at hp2
      exact absurd hp2 (by simp)
  | crashTask j t hwj hb =>
      dsimp only at hp2
      rw [hp1] at hp2
      exact absurd hp2 (by simp)
  | dtorBegin hp =>
      rfl
  | dtorNotifyAll hp =>
      rw [hp] at hp1
      exact absurd hp1 (by simp)
  | dtorJoin j hp hwj =>
      rw [hp] at hp1
      exact absurd hp1 (by simp)
  | dtorFinish j hp hlen =>
      rw [hp] at hp1
      exact absurd hp1 (by simp)

/-- From a single-worker pool whose worker has died of an escaped
exception, no execution ever runs another task: the worker vector stays
dead and the execution log is frozen. -/
theorem crashed_worker_stuck {s s2 : ThreadPool}
    (h : Reachable s s2) (hw : s.m_workers = [.crashed]) :
    s2.m_workers = [.crashed] ∧ s2.executedLog = s.executedLog := by
  induction h with
  | refl => exact ⟨hw, rfl⟩
  | tail hr hstep ih =>
      obtain ⟨ihw, ihe⟩ := ih
      cases hstep with
      | enqueue t => exact ⟨ihw, ihe⟩
      | dequeue j t rest hwj ht =>
          rw [ihw] at hwj
          rcases j with - | j2 <;> simp at hwj
      | exitLoop j hwj hrun ht =>
          rw [ihw] at hwj
          rcases j with - | j2 <;> simp at hwj
      | finishTask j t hwj hb =>
          rw [ihw] at hwj
          rcases j with - | j2 <;> simp at hwj
      | crashTask j t hwj hb =>
          rw [ihw] at hwj
          rcases j with - | j2 <;> simp at hwj
      | dtorBegin hp => exact ⟨ihw, ihe⟩
      | dtorNotifyAll hp => exact ⟨ihw, ihe⟩
      | dtorJoin j hp hwj =>
          rw [ihw] at hwj
          rcases j with - | j2 <;> simp at hwj
      | dtorFinish j hp hlen => exact ⟨ihw, ihe⟩

/-- A pool constructed with zero workers never executes anything: there is
no thread to dequeue, so the execution log stays empty forever. -/
theorem no_workers_no_execution {s s2 : ThreadPool}
    (h : Reachable s s2) (hw : s.m_workers = []) (he : s.executedLog = []) :
    s2.m_workers = [] ∧ s2.executedLog = [] := by
  induction h with
  | refl => exact ⟨hw, he⟩
  | tail hr hstep ih =>
      obtain ⟨ihw, ihe⟩ := ih
      cases hstep with
      | enqueue t => exact ⟨ihw, ihe⟩
      | dequeue j t rest hwj ht => rw [ihw] at hwj; simp at hwj
      | exitLoop j hwj hrun ht => rw [ihw] at hwj; simp at hwj
      | finishTask j t hwj hb => rw [ihw] at hwj; simp at hwj
      | crashTask j t hwj hb => rw [ihw] at hwj; simp at hwj
      | dtorBegin hp => exact ⟨ihw, ihe⟩
      | dtorNotifyAll hp => exact ⟨ihw, ihe⟩
      | dtorJoin j hp hwj => rw [ihw] at hwj; simp at hwj
      | dtorFinish j hp hlen => exact ⟨ihw, ihe⟩

/-- A waiting worker can, when scheduled alone, drain the whole queue: for
any queue of normally returning tasks there is an execution that executes
them all, in order, leaving the rest of the state untouched. -/
theorem worker_drains_queue (ts : List PoolTask) :
    ∀ (s : ThreadPool) (i : Nat),
      s.m_workers[i]? = some .waiting →
      s.m_tasks = ts →
      (∀ t ∈ ts, t.body = .ok) →
      ∃ s2 : ThreadPool, Reachable s s2 ∧
        s2.executedLog = s.executedLog ++ ts.map PoolTask.id ∧
        s2.m_tasks = [] ∧
        s2.m_workers = s.m_workers ∧
        s2.enqueuedLog = s.enqueuedLog ∧
        s2.m_running = s.m_running ∧
        s2.dtorPhase = s.dtorPhase := by
  induction ts with
  | nil =>
      intro s i hw ht hok
      exact ⟨s, .refl, by simp, ht, rfl, rfl, rfl, rfl⟩
  | cons t rest ih =>
      intro s i hw ht hok
      obtain ⟨hlt, -⟩ := List.getElem?_eq_some_iff.mp hw
      have hselfset : s.m_workers.set i .waiting = s.m_workers :=
        set_self_of_getElem? hw
      have st1 : Step s { s with
          m_workers := s.m_workers.set i (.running t)
          m_tasks := rest
          startedLog := s.startedLog ++ [t] } :=
        Step.dequeue s i t rest hw ht
      have st2 : Step { s with
          m_workers := s.m_workers.set i (.running t)
          m_tasks := rest
          startedLog := s.startedLog ++ [t] } { s with
          m_workers := s.m_workers
          m_tasks := rest
          startedLog := s.startedLog ++ [t]
          executedLog := s.executedLog ++ [t.id] } := by
        have h2 := Step.finishTask { s with
            m_workers := s.m_workers.set i (.running t)
            m_tasks := rest
            startedLog := s.startedLog ++ [t] } i t
          (by dsimp only; exact List.getElem?_set_self hlt)
          (hok t (by simp))
        dsimp only at h2
        rw [List.set_set, hselfset] at h2
        exact h2
      obtain ⟨s2, hre, hexec, hque, hwork, henq, hrun, hph⟩ :=
        ih { s with
            m_workers := s.m_workers
            m_tasks := rest
            startedLog := s.startedLog ++ [t]
            executedLog := s.executedLog ++ [t.id] } i hw rfl
          (fun u hu => hok u (by simp [hu]))
      refine ⟨s2, .head st1 (.head st2 hre), ?_, hque, hwork, henq, hrun, hph⟩
      rw [hexec]
      dsimp only
      rw [List.append_assoc]
      rfl

/-- The guarded join loop applied to a vector of finished or already
joined threads succeeds and leaves every slot joined. -/
theorem joinAllWorkers_of_quiesced (ws : List WorkerState)
    (h : ∀ w ∈ ws, w = .stopped ∨ w = .joined) :
    joinAllWorkers ws = some (List.replicate ws.length .joined) := by
  induction ws with
  | nil => rfl
  | cons w ws2 ih =>
      have hw := h w (by simp)
      have hrest := ih (fun w2 hw2 => h w2 (by simp [hw2]))
      rcases hw with hw | hw <;> subst hw <;>
        simp [joinAllWorkers, joinIfJoinable, hrest, List.replicate_succ]

/-- No slot of a fully joined vector passes the joinable guard. -/
theorem filter_joinable_replicate_joined (n : Nat) :
    (List.replicate n WorkerState.joined).filter joinable = [] := by
  induction n with
  | zero => rfl
  | succ m ih => simp [List.replicate_succ, List.filter_cons, joinable, ih]

/-- Along any execution in which destruction has begun, as soon as some
worker has left its loop (Stopped, or already joined), every task that was
queued at the moment the destructor began has been dequeued: a worker can
only return at line 50 with the queue empty, and the queue is FIFO. -/
theorem drained_when_stopped {n : Nat} {s1 s3 : ThreadPool}
    (hr1 : Reachable (initialState n) s1)
    (hp1 : s1.dtorPhase = .notCalled)
    (hr2 : Reachable
      { s1 with m_running := false, dtorPhase := .flagCleared } s3) :
    (∃ (j : Nat) (w : WorkerState), s3.m_workers[j]? = some w ∧
      (w = WorkerState.stopped ∨ w = WorkerState.joined)) →
    ∀ t ∈ s1.m_tasks, t ∈ s3.startedLog := by
  induction hr2 with
  | refl =>
      rintro ⟨j, w, hjw, hsj⟩ t ht
      have hI1 := poolInv_of_initial hr1
      have hrun := hI1.runningAtStart hp1
      have hns := hI1.noStopWhileRunning hrun j w hjw
      rcases hsj with h | h
      · exact absurd h hns.1
      · exact absurd h hns.2
  | tail hr hstep ih =>
      rintro ⟨j, w, hjw, hsj⟩ t ht
      have hI1 := poolInv_of_initial hr1
      have hreachb :=
        hr1.trans ((Relation.ReflTransGen.single (Step.dtorBegin s1 hp1)).trans hr)
      have hIb := poolInv_of_initial hreachb
      cases hstep with
      | enqueue t2 =>
          dsimp only [enqueueTask] at hjw ⊢
          exact ih ⟨j, w, hjw, hsj⟩ t ht
      | dequeue k t2 rest hk htk =>
          dsimp only at hjw ⊢
          rw [getElem?_set_split hk] at hjw
          split at hjw
          · cases hjw
            rcases hsj with h | h <;> simp at h
          · exact List.mem_append_left _ (ih ⟨j, w, hjw, hsj⟩ t ht)
      | exitLoop k hk hrunb htb =>
          have h1 : t ∈ s1.enqueuedLog := by
            rw [hI1.fifo]
            exact List.mem_append_right _ ht
          have hmem_enq := reachable_enqueued_mem hr h1
          have hbs : _ = _ := hIb.fifo
          rw [htb, List.append_nil] at hbs
          dsimp only
          rw [← hbs]
          exact hmem_enq
      | finishTask k t2 hk hb2 =>
          dsimp only at hjw ⊢
          rw [getElem?_set_split hk] at hjw
          split at hjw
          · cases hjw
            rcases hsj with h | h <;> simp at h
          · exact ih ⟨j, w, hjw, hsj⟩ t ht
      | crashTask k t2 hk hb2 =>
          dsimp only at hjw ⊢
          rw [getElem?_set_split hk] at hjw
          split at hjw
          · cases hjw
            rcases hsj with h | h <;> simp at h
          · exact ih ⟨j, w, hjw, hsj⟩ t ht
      | dtorBegin hp =>
          dsimp only at hjw ⊢
          exact ih ⟨j, w, hjw, hsj⟩ t ht
      | dtorNotifyAll hp =>
          dsimp only at hjw ⊢
          exact ih ⟨j, w, hjw, hsj⟩ t ht
      | dtorJoin k hp hk =>
          dsimp only at hjw ⊢
          rw [getElem?_set_split hk] at hjw
          split at hjw
          · exact ih ⟨k, .stopped, hk, Or.inl rfl⟩ t ht
          · exact ih ⟨j, w, hjw, hsj⟩ t ht
      | dtorFinish k hp hlen =>
          dsimp only at hjw ⊢
          exact ih ⟨j, w, hjw, hsj⟩ t ht

/-! ### Claims -/

/-- Claim C1, counterexample to the claim as stated. The claim asserts
that every task enqueued before shutdown is dispatched AND EXECUTED before
any Worker transitions to Stopped. In this two-worker execution a task is
queued when destruction begins, worker 0 dequeues it, and worker 1
transitions to Stopped while the task is still executing: a worker has
Stopped and the execution log is still empty. -/
theorem C1_counterexample :
    Reachable (initialState 2) stop1 ∧
    Step stop1 stop2 ∧
    stop1.dtorPhase = DtorPhase.notCalled ∧
    stop2.dtorPhase = DtorPhase.flagCleared ∧
    Reachable stop2 stop4 ∧
    demoTaskA ∈ stop1.m_tasks ∧
    stop4.m_workers[1]? = some WorkerState.stopped ∧
    stop4.executedLog = [] :=
  ⟨stopReach1, stopStep12, rfl, rfl, stopReach24, by decide, rfl, rfl⟩

/-- Claim C1, amended. Every task queued at the moment the destructor
begins is dispatched (dequeued) before any Worker transitions to Stopped,
because a worker loop terminates only when the running flag is false and
the queue is empty; and destruction returns only after every such task has
completed, provided the pool has at least one worker and no task body
raises. (The original claim additionally asserted completion before any
Worker stops, which the counterexample refutes.) -/
theorem C1_graceful_drain (n : Nat) (s1 s2 s3 : ThreadPool)
    (hn : 1 ≤ n)
    (hr1 : Reachable (initialState n) s1)
    (hstep : Step s1 s2)
    (hp1 : s1.dtorPhase = DtorPhase.notCalled)
    (hp2 : s2.dtorPhase = DtorPhase.flagCleared)
    (hr2 : Reachable s2 s3)
    (hdone : s3.dtorPhase = DtorPhase.done)
    (hlost : s3.lostLog = []) :
    (∀ t ∈ s1.m_tasks, t.id ∈ s3.executedLog) ∧
    (∀ (u u2 : ThreadPool) (i : Nat), Step u u2 →
      u.m_workers[i]? = some WorkerState.waiting →
      u2.m_workers[i]? = some WorkerState.stopped →
      u.m_running = false ∧ u.m_tasks = []) := by
  have hshape := begin_step_shape hstep hp1 hp2
  subst hshape
  refine ⟨?_, fun u u2 i hs hw hw2 => exit_requires_idle_and_empty hs hw hw2⟩
  intro t ht
  have hall : Reachable (initialState n) s3 :=
    hr1.trans ((Relation.ReflTransGen.single hstep).trans hr2)
  have hI3 := poolInv_of_initial hall
  have hlen3 : s3.m_workers.length = n := by
    have h := reachable_workers_length hall
    simpa [initialState] using h
  have hex : ∃ (j : Nat) (w : WorkerState), s3.m_workers[j]? = some w ∧
      (w = WorkerState.stopped ∨ w = WorkerState.joined) :=
    ⟨0, .joined, hI3.joinedAll hdone 0 (by omega), Or.inr rfl⟩
  have hstarted := drained_when_stopped hr1 hp1 hr2 hex t ht
  have hjoined := workers_all_joined hI3 hdone
  have hcount := hI3.conserve t.id
  rw [hjoined, inFlightIds_replicate_joined, hlost] at hcount
  simp only [List.count_nil] at hcount
  have hpos : 0 < (s3.startedLog.map PoolTask.id).count t.id :=
    List.count_pos_iff.mpr (List.mem_map_of_mem _ hstarted)
  have hpos2 : 0 < s3.executedLog.count t.id := by omega
  exact List.count_pos_iff.mp hpos2

/-- Claim C1 witness: in the drain run a task queued at the moment the
destructor began is executed by the time destruction completes. -/
theorem C1_witness :
    demoTaskA ∈ drain1.m_tasks ∧
    drain8.dtorPhase = DtorPhase.done ∧
    demoTaskA.id ∈ drain8.executedLog :=
  ⟨by decide, rfl,
    (C1_graceful_drain 1 drain1 drain2 drain8 (by decide) drainReach1
      drainStep12 rfl rfl drainReach28 rfl rfl).1 demoTaskA (by decide)⟩

/-- Claim C2: exactly-once delivery. In any execution that ends with the
destructor returned, the queue drained, no escaped exception, and pairwise
distinct task ids, every submitted task id occurs exactly once in the
execution log: no task is lost and none is executed twice, because the
head of the queue is removed under the lock before execution. -/
theorem C2_exactly_once (n : Nat) (s : ThreadPool)
    (hr : Reachable (initialState n) s)
    (hdone : s.dtorPhase = DtorPhase.done)
    (hq : s.m_tasks = [])
    (hlost : s.lostLog = [])
    (hnodup : (s.enqueuedLog.map PoolTask.id).Nodup) :
    ∀ t ∈ s.enqueuedLog, s.executedLog.count t.id = 1 := by
  have hI := poolInv_of_initial hr
  have hstartedeq : s.enqueuedLog = s.startedLog := by
    rw [hI.fifo, hq, List.append_nil]
  have hjoined := workers_all_joined hI hdone
  intro t ht
  have hcount := hI.conserve t.id
  rw [hjoined, inFlightIds_replicate_joined, hlost] at hcount
  simp only [List.count_nil] at hcount
  have hmem : t.id ∈ s.enqueuedLog.map PoolTask.id := List.mem_map_of_mem _ ht
  have h1 : (s.enqueuedLog.map PoolTask.id).count t.id = 1 :=
    List.count_eq_one_of_mem hnodup hmem
  rw [hstartedeq] at h1
  omega

/-- Claim C2 witness: the demonstration run submits two distinct tasks and
each is executed exactly once. -/
theorem C2_witness :
    demoTaskA ∈ demo11.enqueuedLog ∧
    demo11.executedLog.count demoTaskA.id = 1 :=
  ⟨by decide,
    C2_exactly_once 1 demo11 demoReach rfl rfl rfl (by decide)
      demoTaskA (by decide)⟩

/-- Claim C3: contract of the blocking dequeue (lines 44-55). The wait
releases exactly when the queue is non-empty, in which case the head task
is removed and returned, or when shutdown has been signalled with the
queue empty, in which case the caller is told to terminate; under no other
condition does the wait release. -/
theorem C3_popBlocking_contract (tasks : List PoolTask) (running : Bool) :
    (popBlocking tasks running ≠ PopResult.blocked ↔
      (tasks ≠ [] ∨ (running = false ∧ tasks = []))) ∧
    (∀ (t : PoolTask) (rest : List PoolTask), tasks = t :: rest →
      popBlocking tasks running = PopResult.dequeued t rest) ∧
    (tasks = [] → running = false →
      popBlocking tasks running = PopResult.shutdownSignal) ∧
    (tasks = [] → running = true →
      popBlocking tasks running = PopResult.blocked) := by
  rcases tasks with - | ⟨t, rest⟩ <;> cases running <;>
    simp [popBlocking, waitPredicateHolds]

/-- Claim C3 witness: the three outcomes at concrete inputs. -/
theorem C3_witness :
    popBlocking [demoTaskA] true = PopResult.dequeued demoTaskA [] ∧
    popBlocking [] false = PopResult.shutdownSignal ∧
    popBlocking [] true = PopResult.blocked :=
  ⟨(C3_popBlocking_contract [demoTaskA] true).2.1 demoTaskA [] rfl,
    (C3_popBlocking_contract [] false).2.2.1 rfl rfl,
    (C3_popBlocking_contract [] true).2.2.2 rfl rfl⟩

/-- Claim C4, counterexample to the claim as stated. The claim asserts
that a failure raised by a task body is caught at the Worker level and the
worker survives. Line 56 invokes the task with no try/catch, so in the
embedding the worker that executes a throwing task transitions to crashed:
here the single worker is dead, the execution log is empty, and a normal
task submitted after the throwing one is still queued. -/
theorem C4_counterexample :
    Reachable (initialState 1) crash3 ∧
    crash3.m_workers = [WorkerState.crashed] ∧
    crash3.m_tasks = [demoTaskB] ∧
    crash3.executedLog = [] :=
  ⟨crashReach, rfl, rfl, rfl⟩

/-- Claim C4, amended. The code does not contain task failures: line 56
has no exception handler, so a throwing task kills its worker (in C++ the
escaping exception reaches std::terminate). In a single-worker pool, once
the worker has crashed no subsequently submitted task is ever executed:
along every continuation the worker vector stays dead and the execution
log is frozen. -/
theorem C4_exception_escapes (s s2 : ThreadPool)
    (hw : s.m_workers = [WorkerState.crashed])
    (h : Reachable s s2) :
    s2.m_workers = [WorkerState.crashed] ∧
    s2.executedLog = s.executedLog :=
  crashed_worker_stuck h hw

/-- Claim C4 witness: from the crashed state, submitting one more task
leaves the worker dead and the execution log unchanged. -/
theorem C4_witness :
    crash3.m_workers = [WorkerState.crashed] ∧
    (enqueueTask demoTaskA crash3).m_workers = [WorkerState.crashed] ∧
    (enqueueTask demoTaskA crash3).executedLog = crash3.executedLog :=
  ⟨rfl,
    (C4_exception_escapes crash3 (enqueueTask demoTaskA crash3) rfl
      (Relation.ReflTransGen.single (Step.enqueue crash3 demoTaskA))).1,
    (C4_exception_escapes crash3 (enqueueTask demoTaskA crash3) rfl
      (Relation.ReflTransGen.single (Step.enqueue crash3 demoTaskA))).2⟩

/-- Claim C5, counterexample to the claim as stated. The claim asserts
that construction with threadCount below 1 fails fast. The constructor
performs no validation: with threadCount 0 it succeeds and produces a pool
with an empty worker vector, where the spec model rejects. -/
theorem C5_counterexample :
    construct 0 = Except.ok (initialState 0) ∧
    constructSpecModel 0 = Except.error ConstructError.badThreadCount ∧
    (initialState 0).m_workers = [] :=
  ⟨rfl, rfl, rfl⟩

/-- Claim C5, amended. Construction never fails: for every threadCount,
including 0, the constructor succeeds and spawns exactly threadCount
workers; a pool constructed with zero workers accepts submissions but
never executes anything. -/
theorem C5_construct_never_fails (threadCount : Nat) :
    construct threadCount = Except.ok (initialState threadCount) ∧
    (initialState threadCount).m_workers =
      List.replicate threadCount WorkerState.waiting ∧
    (∀ s2 : ThreadPool, Reachable (initialState 0) s2 →
      s2.executedLog = []) :=
  ⟨rfl, rfl, fun s2 h => (no_workers_no_execution h rfl rfl).2⟩

/-- Claim C5 witness: construction at 0 succeeds and the zero-worker pool
has an empty execution log. -/
theorem C5_witness :
    construct 0 = Except.ok (initialState 0) ∧
    (initialState 0).executedLog = [] :=
  ⟨(C5_construct_never_fails 0).1,
    (C5_construct_never_fails 0).2.2 (initialState 0)
      Relation.ReflTransGen.refl⟩

/-- Claim C6: eager construction of exactly threadCount workers. For
every threadCount at least 1, the constructor produces exactly threadCount
workers, all immediately inside their loop at the wait (they share the one
m_tasks queue and the one m_running flag of the pool state by
construction), with the flag set; and no step ever changes the size of the
worker vector. -/
theorem C6_eager_spawn (threadCount : Nat) (h1 : 1 ≤ threadCount) :
    (initialState threadCount).m_workers =
      List.replicate threadCount WorkerState.waiting ∧
    (initialState threadCount).m_running = true ∧
    (∀ s s2 : ThreadPool, Step s s2 →
      s2.m_workers.length = s.m_workers.length) :=
  ⟨rfl, rfl, fun _ _ h => step_workers_length h⟩

/-- Claim C6 witness: a two-worker pool starts with exactly two waiting
workers, and a concrete step preserves the count. -/
theorem C6_witness :
    1 ≤ 2 ∧
    (initialState 2).m_workers = List.replicate 2 WorkerState.waiting ∧
    stop2.m_workers.length = stop1.m_workers.length :=
  ⟨by decide, (C6_eager_spawn 2 (by decide)).1,
    (C6_eager_spawn 2 (by decide)).2.2 stop1 stop2 stopStep12⟩

/-- Claim C7: shutdown sequence and no thread leak. Along any execution,
once the destructor has taken its first action the running flag is false
(the flag is cleared before the notify_all broadcast and before any join,
which the phase order notCalled, flagCleared, joining, done of the
embedded destructor enforces); and when the destructor has returned every
worker thread has been joined: none remains alive. -/
theorem C7_shutdown_protocol (n : Nat) (s : ThreadPool)
    (hr : Reachable (initialState n) s) :
    (s.dtorPhase ≠ DtorPhase.notCalled → s.m_running = false) ∧
    (s.dtorPhase = DtorPhase.done →
      s.m_workers = List.replicate n WorkerState.joined) := by
  have hI := poolInv_of_initial hr
  refine ⟨hI.flagBeforeDtor, ?_⟩
  intro hdone
  have hlen : s.m_workers.length = n := by
    have h := reachable_workers_length hr
    simpa [initialState] using h
  rw [workers_all_joined hI hdone, hlen]

/-- Claim C7 witness: after the demonstration run completes destruction,
the flag is down and the single worker is joined. -/
theorem C7_witness :
    demo11.m_running = false ∧
    demo11.m_workers = List.replicate 1 WorkerState.joined :=
  ⟨(C7_shutdown_protocol 1 demo11 demoReach).1 (by decide),
    (C7_shutdown_protocol 1 demo11 demoReach).2 rfl⟩

/-- Claim C8: FIFO per single producer. In every reachable state the
submission log equals the dequeue log followed by the current queue, so
the sequence of dequeues is an initial segment of the sequence of
submissions: tasks are dequeued, and handed to workers, in exactly the
order a sequential producer submitted them. -/
theorem C8_fifo_single_producer (n : Nat) (s : ThreadPool)
    (hr : Reachable (initialState n) s) :
    s.enqueuedLog = s.startedLog ++ s.m_tasks ∧
    s.startedLog = s.enqueuedLog.take s.startedLog.length := by
  have hI := poolInv_of_initial hr
  refine ⟨hI.fifo, ?_⟩
  rw [hI.fifo, List.take_left]

/-- Claim C8 witness: in the demonstration run the two tasks are dequeued
in submission order. -/
theorem C8_witness :
    demo11.enqueuedLog = demo11.startedLog ++ demo11.m_tasks ∧
    demo11.startedLog = demo11.enqueuedLog.take demo11.startedLog.length :=
  C8_fifo_single_producer 1 demo11 demoReach

/-- Claim C9: idempotent shutdown. From any quiescent state whose worker
threads have all finished or been joined, running the destructor sequence
succeeds, and running it a second time succeeds, changes nothing and
performs zero join calls, because every join sits behind the joinable
guard of line 75: no double join, no hang, no crash. -/
theorem C9_idempotent_shutdown (s : ThreadPool)
    (hq : ∀ w ∈ s.m_workers, w = WorkerState.stopped ∨ w = WorkerState.joined) :
    ∃ s1 : ThreadPool, destructorRun s = some s1 ∧
      destructorRun s1 = some s1 ∧
      joinsPerformed s1 = 0 := by
  let s1 : ThreadPool := { s with
    m_running := false
    m_workers := List.replicate s.m_workers.length WorkerState.joined }
  refine ⟨s1, ?_, ?_, ?_⟩
  · unfold destructorRun
    rw [joinAllWorkers_of_quiesced s.m_workers hq]
  · unfold destructorRun
    dsimp only
    rw [joinAllWorkers_of_quiesced
      (List.replicate s.m_workers.length WorkerState.joined)
      (fun w hw => Or.inr (List.eq_of_mem_replicate hw))]
    rw [List.length_replicate]
  · unfold joinsPerformed
    dsimp only
    rw [filter_joinable_replicate_joined]
    rfl

/-- Claim C9 witness: the destructor sequence run twice on a concrete
quiesced pool. -/
theorem C9_witness :
    (∀ w ∈ quiesced.m_workers,
      w = WorkerState.stopped ∨ w = WorkerState.joined) ∧
    ∃ s1 : ThreadPool, destructorRun quiesced = some s1 ∧
      destructorRun s1 = some s1 ∧
      joinsPerformed s1 = 0 :=
  ⟨by decide, C9_idempotent_shutdown quiesced (by decide)⟩

/-- Claim C10: submission is never rejected. The enqueue step carries no
guard on the running flag or the destruction phase, so it is enabled in
every state, including mid-drain states where the flag is already false;
and a task pushed while a worker is still in its loop is executed in some
continuation, because workers keep consuming the queue until it is empty. -/
theorem C10_submit_never_rejected :
    (∀ (s : ThreadPool) (t : PoolTask), Step s (enqueueTask t s)) ∧
    (∀ (s : ThreadPool) (t : PoolTask) (i : Nat),
      s.m_workers[i]? = some WorkerState.waiting →
      (∀ u ∈ s.m_tasks, u.body = TaskBody.ok) →
      t.body = TaskBody.ok →
      ∃ s2 : ThreadPool, Reachable (enqueueTask t s) s2 ∧
        t.id ∈ s2.executedLog) := by
  refine ⟨fun s t => Step.enqueue s t, ?_⟩
  intro s t i hw hall hok
  have hoks : ∀ u ∈ s.m_tasks ++ [t], u.body = TaskBody.ok := by
    intro u hu
    rcases List.mem_append.mp hu with h | h
    · exact hall u h
    · rw [List.mem_singleton.mp h]
      exact hok
  obtain ⟨s2, hre, hexec, -, -, -, -, -⟩ :=
    worker_drains_queue (s.m_tasks ++ [t]) (enqueueTask t s) i hw rfl hoks
  refine ⟨s2, hre, ?_⟩
  rw [hexec]
  simp

/-- Claim C10 witness: in a pool already draining (flag cleared, worker
alive), a new submission is a legal step and the task still executes. -/
theorem C10_witness :
    draining.m_running = false ∧
    Step draining (enqueueTask demoTaskB draining) ∧
    (∃ s2 : ThreadPool, Reachable (enqueueTask demoTaskB draining) s2 ∧
      demoTaskB.id ∈ s2.executedLog) :=
  ⟨rfl, C10_submit_never_rejected.1 draining demoTaskB,
    C10_submit_never_rejected.2 draining demoTaskB 0 rfl (by decide) rfl⟩
